import Mathlib

/-!
Verification of the halfempty speculative test-case minimization engine.

This file is a shallow embedding of the core data structures and algorithms
of halfempty: the task record (task.h), the two reduction strategies
(bisect.c, zero.c), the result classification of the subprocess runner
(proc.c), and the tree driver's leaf expansion, garbage collection and
final-node search (tree.c).  Blobs behind file descriptors are modelled as
lists of bytes (`List Nat`); `sendfile` becomes a list slice; the one loop
whose termination depends on a data-dependent measure (the Zero strategy's
redundancy scan) is given an explicit fuel parameter that dominates its
decreasing measure, so every definition stays executable.
-/

namespace Halfempty

/-- status_t (task.h:20-25). -/
inductive Status where
  | success
  | failure
  | pending
  | discarded
deriving DecidableEq

/-- bisect_t (bisect.c:55-58 and zero.c:42-45): the per-task strategy state. -/
structure BisectState where
  offset : Nat
  chunksize : Nat
deriving DecidableEq

/-- task_t (task.h:27-35).  `data` models the bytes of the (unlinked
temporary) file behind `fd`; the mutex is not modelled. -/
structure Task where
  fd : Int
  size : Nat
  user : Option BisectState
  status : Status
  timer : Option Nat
  childpid : Int
  data : List Nat
deriving DecidableEq

/-- Root initialization common to both strategies (bisect.c:106-116,
zero.c:82-92): attach state (offset = 0, chunksize = size) to the root
task and return the root itself. -/
def strategy_root_init (t : Task) : Task :=
  { t with user := some ⟨0, t.size⟩ }

/-- Successor-state computation of the Bisect strategy (bisect.c:127-149):
at the end of a cycle restart from offset 0 with half the chunksize;
otherwise advance the offset only when the parent did not succeed. -/
def bisect_next_state (pst : BisectState) (psize : Nat) (pstatus : Status) : BisectState :=
  if pst.offset + pst.chunksize > psize then
    ⟨0, pst.chunksize / 2⟩
  else if pstatus ≠ Status.success then
    ⟨pst.offset + pst.chunksize, pst.chunksize⟩
  else
    pst

/-- Successor-state computation of the Zero strategy (zero.c:103-118):
same cycle rule, but the offset always advances (the parent's result is
not consulted). -/
def zero_next_state (pst : BisectState) (psize : Nat) : BisectState :=
  if pst.offset + pst.chunksize > psize then
    ⟨0, pst.chunksize / 2⟩
  else
    ⟨pst.offset + pst.chunksize, pst.chunksize⟩

/-- g_sendfile_all (util.c): copy `count` bytes starting at `offset` from a
blob; as a list operation this is drop-then-take. -/
def g_sendfile_chunk (data : List Nat) (offset count : Nat) : List Nat :=
  (data.drop offset).take count

/-- The task a successful Bisect materialization returns (bisect.c:194-232):
bytes [0, offset) of the source, then — when `offset + chunksize` does not
run past the source — bytes [offset + chunksize, source.size); the size is
accumulated the same way the code does. -/
def bisect_child (st1 : BisectState) (source : Task) : Task :=
  { fd := 0
    size := st1.offset +
      (if st1.offset + st1.chunksize ≤ source.size then
        source.size - st1.chunksize - st1.offset
      else 0)
    user := some st1
    status := Status.pending
    timer := none
    childpid := 0
    data := g_sendfile_chunk source.data 0 st1.offset ++
      (if st1.offset + st1.chunksize ≤ source.size then
        g_sendfile_chunk source.data (st1.offset + st1.chunksize)
          (source.size - st1.chunksize - st1.offset)
      else []) }

/-- strategy_bisect_data (bisect.c:93-244).  `chain` lists the tasks from
the node being expanded up to, but not including, the root; `root` is the
root task; the parent is the head of that path.  The declared
--bisect-skip-empty knob `kSkipEmpty` (bisect.c:61-68) is in scope of the
C function but never read by it, hence the unused parameter.  The C
source-search loop ends at the root task and asserts it found a SUCCESS
node (bisect.c:158-170); the `find?` miss therefore only covers the
corrupt-tree case the assertion guards. -/
def strategy_bisect_data (kSkipEmpty : Bool) (chain : List Task) (root : Task) : Option Task :=
  let parent := chain.headD root
  match parent.user with
  | none =>
    -- bisect.c:106-116: only the root may lack state (g_assert_nonnull otherwise).
    if chain.isEmpty then some (strategy_root_init root) else none
  | some pst =>
    let st1 := bisect_next_state pst parent.size parent.status
    if st1.chunksize = 0 then none
    else
      match (chain ++ [root]).find? (fun t => t.status == Status.success) with
      | none => none
      | some source =>
        if source.size = 0 then none
        else if st1.offset > source.size then none
        else some (bisect_child st1 source)

/-- One step of pread into a zero-initialized buffer of length `c`
(zero.c:185-187): the available bytes at `o`, padded with 0 to length `c`. -/
def padded_read (data : List Nat) (o c : Nat) : List Nat :=
  (data.drop o).take c ++ List.replicate (c - ((data.drop o).take c).length) 0

/-- The inner while loop of the Zero redundancy scan (zero.c:144-160): while
the proposal [o, o + c) is inside the ancestor interval `b`, advance the
offset by the chunksize, rolling over (offset 0, half chunksize) when the
end of the file is passed, and give up (`none`) when the chunksize reaches
0.  The boolean records whether any iteration ran (the `adjusted` flag).
Fuel dominates the decreasing measure; exhaustion returns `none` and is
unreachable from the strategy's call site for the fuel chosen there. -/
def adjust_while (psize : Nat) (b : BisectState) :
    Nat → Nat → Nat → Bool → Option (Nat × Nat × Bool)
  | 0, _, _, _ => none
  | fuel + 1, o, c, adjusted =>
    if b.offset ≤ o ∧ o + c ≤ b.offset + b.chunksize then
      if o + c > psize then
        if c / 2 = 0 then none
        else adjust_while psize b fuel 0 (c / 2) true
      else adjust_while psize b fuel (o + c) c true
    else some (o, c, adjusted)

/-- Result of one pass of the ancestor scan over the non-root path. -/
inductive ScanResult where
  | clean
  | adjusted (o c : Nat)
  | dead
  | assertFailed
deriving DecidableEq

/-- Fuel bound for the scan loops: strictly larger than the measure
chunksize * (psize + 1) + (psize - offset) that every adjustment
decreases. -/
def loop_fuel (psize c : Nat) : Nat :=
  (c + 1) * (psize + 2)

/-- One pass of the Zero redundancy scan (zero.c:131-166): walk the tasks
from the node upward, the root excluded (`!G_NODE_IS_ROOT`); every task
must carry state (g_assert_nonnull, zero.c:135-136); for a SUCCESS task
the assertion chunksize <= ancestor chunksize (zero.c:142) is checked and
the inner while loop run; the first task that adjusted the proposal
restarts the whole scan (`goto restart`). -/
def scan_pass (psize : Nat) : List Task → Nat → Nat → ScanResult
  | [], _, _ => ScanResult.clean
  | t :: rest, o, c =>
    match t.user with
    | none => ScanResult.assertFailed
    | some b =>
      if t.status = Status.success then
        if c ≤ b.chunksize then
          match adjust_while psize b (loop_fuel psize c) o c false with
          | none => ScanResult.dead
          | some (o', c', true) => ScanResult.adjusted o' c'
          | some (_, _, false) => scan_pass psize rest o c
        else ScanResult.assertFailed
      else scan_pass psize rest o c

/-- Outcome of a computation that may trip a g_assert (which aborts the
process in C). -/
inductive GAssert (α : Type) where
  | ok (a : α)
  | assertFailed
deriving DecidableEq

/-- The restart loop of the Zero strategy (zero.c:125-219): re-scan the
ancestors after every adjustment; after a clean pass, skip the proposal as
well when the source bytes at [o, o + c) already all equal the zero
character (zero.c:183-217), advancing with the same rollover rule.  Fuel
exhaustion returns no task and is unreachable for the fuel the strategy
passes. -/
def zero_adjust_loop (psize : Nat) (chain : List Task) (srcdata : List Nat) (zc : Nat) :
    Nat → Nat → Nat → GAssert (Option (Nat × Nat))
  | 0, _, _ => GAssert.ok none
  | fuel + 1, o, c =>
    match scan_pass psize chain o c with
    | ScanResult.assertFailed => GAssert.assertFailed
    | ScanResult.dead => GAssert.ok none
    | ScanResult.adjusted o' c' => zero_adjust_loop psize chain srcdata zc fuel o' c'
    | ScanResult.clean =>
      if padded_read srcdata o c = List.replicate c zc then
        if o + c > psize then
          if c / 2 = 0 then GAssert.ok none
          else zero_adjust_loop psize chain srcdata zc fuel 0 (c / 2)
        else zero_adjust_loop psize chain srcdata zc fuel (o + c) c
      else GAssert.ok (some (o, c))

/-- The task a successful Zero materialization returns (zero.c:222-276):
bytes [0, o) of the source, then min(source.size - o, c) copies of the
zero character (ftruncate for 0, an explicit write otherwise), then —
when `o + c` does not run past the source — bytes [o + c, source.size);
the size always equals the source's. -/
def zero_child (zc : Nat) (o c : Nat) (source : Task) : Task :=
  { fd := 0
    size := source.size
    user := some ⟨o, c⟩
    status := Status.pending
    timer := none
    childpid := 0
    data := g_sendfile_chunk source.data 0 o ++
      List.replicate (min (source.size - o) c) zc ++
      (if o + c ≤ source.size then
        g_sendfile_chunk source.data (o + c) (source.size - c - o)
      else []) }

/-- strategy_zero_data (zero.c:68-288).  Same path convention as
`strategy_bisect_data`; `zc` is kZeroCharacter.  The source task does not
change across restarts, so it is computed once here, and a tripped
g_assert (which aborts the C process) produces no task. -/
def strategy_zero_data (zc : Nat) (chain : List Task) (root : Task) : Option Task :=
  let parent := chain.headD root
  match parent.user with
  | none =>
    -- zero.c:82-92: only the root may lack state (g_assert_nonnull otherwise).
    if chain.isEmpty then some (strategy_root_init root) else none
  | some pst =>
    let st0 := zero_next_state pst parent.size
    if st0.chunksize = 0 then none
    else
      match (chain ++ [root]).find? (fun t => t.status == Status.success) with
      | none => none
      | some source =>
        match zero_adjust_loop parent.size chain source.data zc
            (loop_fuel parent.size st0.chunksize) st0.offset st0.chunksize with
        | GAssert.assertFailed => none
        | GAssert.ok none => none
        | GAssert.ok (some (o, c)) =>
          if o > source.size then none
          else some (zero_child zc o c source)

/-- The interval [inner.offset, inner.offset + inner.chunksize) lies
entirely inside [outer.offset, outer.offset + outer.chunksize)
(the condition of zero.c:144). -/
def interval_contained (inner outer : BisectState) : Prop :=
  outer.offset ≤ inner.offset ∧
    inner.offset + inner.chunksize ≤ outer.offset + outer.chunksize

instance (inner outer : BisectState) : Decidable (interval_contained inner outer) := by
  unfold interval_contained
  infer_instance

/-- Exit disposition of the predicate child as waitid reports it
(proc.c:313-335): CLD_EXITED with the exit code, CLD_KILLED or CLD_DUMPED
with the signal. -/
inductive ChildDisposition where
  | exited (code : Nat)
  | killed (sig : Nat)
  | dumped (sig : Nat)
deriving DecidableEq

/-- Result of submit_data_subprocess (proc.c:313-335): the raw exit code
for a normal exit, the sentinel -1 when the child was killed or dumped
core. -/
def submit_data_subprocess_result : ChildDisposition → Int
  | ChildDisposition.exited code => (code : Int)
  | ChildDisposition.dumped _ => -1
  | ChildDisposition.killed _ => -1

/-- The status a worker records from the runner's result
(tree.c:480-521): the switch sends 0 to SUCCESS and every other value
(case 1 and the default both) to FAILURE. -/
def process_result_status (result : Int) : Status :=
  if result = 0 then Status.success else Status.failure

/-- g_node_insert of GLib as used on a node's list of child slots: insert
at the given position, a placeholder being a slot with no task. -/
def g_node_insert : List (Option Task) → Nat → Option Task → List (Option Task)
  | xs, 0, c => c :: xs
  | [], _ + 1, c => [c]
  | x :: xs, n + 1, c => x :: g_node_insert xs n c

/-- The two insertions the driver performs when expanding a leaf
(tree.c:260-278): on a SUCCESS leaf, a placeholder at position FALSE then
the real child at position TRUE; otherwise the real child at position
FALSE then a placeholder at position TRUE. -/
def expand_leaf (leafStatus : Status) (child : Task) : List (Option Task) :=
  if leafStatus = Status.success then
    g_node_insert (g_node_insert [] 0 none) 1 (some child)
  else
    g_node_insert (g_node_insert [] 0 (some child)) 1 none

/-- g_node_success (tree.h: nth child at TRUE, i.e. index 1). -/
def g_node_success_slot (children : List (Option Task)) : Option (Option Task) :=
  children[1]?

/-- g_node_failure (tree.h: nth child at FALSE, i.e. index 0). -/
def g_node_failure_slot (children : List (Option Task)) : Option (Option Task) :=
  children[0]?

/-- cleanup_orphaned_tasks (tree.c:339-383): under the task's mutex, a
PENDING task becomes DISCARDED (any other status is left alone), the fd is
closed and zeroed to -1, the child reaped and childpid zeroed.  No other
field is touched. -/
def cleanup_orphaned_tasks (task : Task) : Task :=
  { task with
    status := if task.status = Status.pending then Status.discarded else task.status
    fd := -1
    childpid := 0 }

/-- The driver's binary tree.  Expansion always inserts both children
(tree.c:260-278), so a node either is a leaf or has both a failure (index
0) and a success (index 1) child; a slot may hold no task (placeholder). -/
inductive Tree where
  | leafN (task : Option Task)
  | branch (task : Option Task) (fail succ : Tree)
deriving DecidableEq

/-- Every task the tree carries. -/
def tree_tasks : Tree → List Task
  | Tree.leafN t => t.toList
  | Tree.branch t f s => t.toList ++ tree_tasks f ++ tree_tasks s

/-- The while loop of find_finalized_node (tree.c:658-673): descend the
success branch under a SUCCESS task and the failure branch under a
FAILURE task, remembering the last qualifying node; stop at a leaf, a
missing task or any other status. -/
def find_finalized_loop (success : Bool) : Tree → Option Task → Option Task
  | Tree.leafN _, final => final
  | Tree.branch none _ _, final => final
  | Tree.branch (some tk) f s, final =>
    if tk.status = Status.success then
      find_finalized_loop success s (some tk)
    else if tk.status = Status.failure then
      find_finalized_loop success f (if success then final else some tk)
    else final

/-- find_finalized_node (tree.c:642-684): the deepest finalized node along
the predicted path, restricted to SUCCESS nodes when `success` is true. -/
def find_finalized_node (success : Bool) (t : Tree) : Option Task :=
  match t with
  | Tree.leafN none => none
  | Tree.branch none _ _ => none
  | Tree.leafN (some tk) | Tree.branch (some tk) _ _ =>
    find_finalized_loop success t
      (if tk.status = Status.success then some tk
      else if ¬success ∧ tk.status = Status.failure then some tk
      else none)

/-- duplicate_final_node (tree.c:688-712) duplicates the fd of the deepest
finalized SUCCESS node; what the caller observes of it is that node's
size. -/
def duplicate_final_node (t : Tree) : Option Nat :=
  (find_finalized_node true t).map Task.size

/-- The configuration facts main() checks before the engine starts
(unnamed part_002:214-235). -/
structure Config where
  maxUnprocessed : Nat
  argcOk : Bool
  scriptExecutable : Bool
  inputReadable : Bool

/-- main() proceeds past option handling when the argument count and the
two access checks pass (unnamed part_002:214-235); kMaxUnprocessed is
never examined. -/
def main_config_accepted (cfg : Config) : Bool :=
  cfg.argcOk && cfg.scriptExecutable && cfg.inputReadable

/-- The driver's backpressure gate (tree.c:155): new work is generated
only while the unprocessed count is not above kMaxUnprocessed. -/
def should_generate_work (unprocessed kMaxUnprocessed : Nat) : Bool :=
  decide (¬ unprocessed > kMaxUnprocessed)

/-- How a child task's strategy state arises from its parent's: the Bisect
successor state, or the Zero successor state further adjusted by the
redundancy scan (whose result the Zero strategy attaches to the child). -/
inductive DerivesChildState : BisectState → BisectState → Prop where
  | bisect (pst : BisectState) (psize : Nat) (pstatus : Status) :
      DerivesChildState pst (bisect_next_state pst psize pstatus)
  | zero (pst : BisectState) (psize fuel zc : Nat) (chain : List Task)
      (srcdata : List Nat) (o c : Nat) :
      zero_adjust_loop psize chain srcdata zc fuel
        (zero_next_state pst psize).offset (zero_next_state pst psize).chunksize =
        GAssert.ok (some (o, c)) →
      DerivesChildState pst ⟨o, c⟩

/-! ### Concrete tasks and trees used by the witnesses and counterexamples -/

/-- A verified root: 4 bytes, SUCCESS, state (0, 4). -/
def taskRootExample : Task :=
  { fd := 3, size := 4, user := some ⟨0, 4⟩, status := Status.success,
    timer := none, childpid := 0, data := [1, 2, 3, 4] }

/-- A failed first candidate under that root: state (4, 4), fd released. -/
def taskFailedExample : Task :=
  { fd := -1, size := 4, user := some ⟨4, 4⟩, status := Status.failure,
    timer := none, childpid := 0, data := [] }

/-- A failed candidate under that root in a later cycle: state (0, 2),
fd released. -/
def taskFailedHalfExample : Task :=
  { fd := -1, size := 4, user := some ⟨0, 2⟩, status := Status.failure,
    timer := none, childpid := 0, data := [] }

/-- A successful Zero candidate under that root: first two bytes zeroed,
state (0, 2). -/
def taskZeroedExample : Task :=
  { fd := 5, size := 4, user := some ⟨0, 2⟩, status := Status.success,
    timer := none, childpid := 0, data := [0, 0, 3, 4] }

/-- An uninitialized 3-byte root (fresh tree, state not yet attached). -/
def taskFreshRootExample : Task :=
  { fd := 3, size := 3, user := none, status := Status.success,
    timer := none, childpid := 0, data := [10, 20, 30] }

/-- A finalized 2-byte success below the example root. -/
def taskSmallSuccessExample : Task :=
  { fd := 6, size := 2, user := some ⟨0, 2⟩, status := Status.success,
    timer := none, childpid := 0, data := [3, 4] }

/-- A finalized 3-byte failure below the example root. -/
def taskMidFailureExample : Task :=
  { fd := -1, size := 3, user := some ⟨0, 2⟩, status := Status.failure,
    timer := none, childpid := 0, data := [] }

/-- A finalized example tree: root SUCCESS, its success child SUCCESS and
expanded, the deeper slots placeholders or a failed leaf. -/
def treeExample : Tree :=
  Tree.branch (some taskRootExample)
    (Tree.leafN none)
    (Tree.branch (some taskSmallSuccessExample)
      (Tree.leafN (some taskMidFailureExample))
      (Tree.leafN none))

/-! ### Lemmas about the Zero redundancy scan -/

/-- Once the adjusted flag is raised it stays raised. -/
lemma adjust_while_flag (psize : Nat) (b : BisectState) :
    ∀ (fuel o c : Nat) (r : Nat × Nat × Bool),
      adjust_while psize b fuel o c true = some r → r.2.2 = true := by
  intro fuel
  induction fuel with
  | zero => intro o c r h; simp [adjust_while] at h
  | succ n ih =>
    intro o c r h
    simp only [adjust_while] at h
    split at h
    · split at h
      · split at h
        · exact absurd h (by simp)
        · exact ih 0 (c / 2) r h
      · exact ih (o + c) c r h
    · exact (Option.some.inj h) ▸ rfl

/-- A run that never raised the flag made no iteration, so the containment
test failed at entry. -/
lemma adjust_while_false_not_contained (psize : Nat) (b : BisectState)
    (fuel o c o' c' : Nat)
    (h : adjust_while psize b fuel o c false = some (o', c', false)) :
    ¬(b.offset ≤ o ∧ o + c ≤ b.offset + b.chunksize) := by
  cases fuel with
  | zero => simp [adjust_while] at h
  | succ n =>
    simp only [adjust_while] at h
    split at h
    · split at h
      · split at h
        · exact absurd h (by simp)
        · exact absurd (adjust_while_flag psize b n 0 (c / 2) _ h) (by simp)
      · exact absurd (adjust_while_flag psize b n (o + c) c _ h) (by simp)
    · next hnc => exact hnc

/-- The inner while loop never increases the chunksize. -/
lemma adjust_while_chunk_le (psize : Nat) (b : BisectState) :
    ∀ (fuel o c : Nat) (adj : Bool) (o' c' : Nat) (a' : Bool),
      adjust_while psize b fuel o c adj = some (o', c', a') → c' ≤ c := by
  intro fuel
  induction fuel with
  | zero => intro o c adj o' c' a' h; simp [adjust_while] at h
  | succ n ih =>
    intro o c adj o' c' a' h
    simp only [adjust_while] at h
    split at h
    · split at h
      · split at h
        · exact absurd h (by simp)
        · exact le_trans (ih 0 (c / 2) true o' c' a' h) (Nat.div_le_self c 2)
      · exact ih (o + c) c true o' c' a' h
    · obtain ⟨-, h2, -⟩ := Prod.mk.injEq .. ▸ (Option.some.inj h)
      simp_all

/-- A pass that restarted the scan never increases the chunksize. -/
lemma scan_pass_adjusted_le (psize : Nat) :
    ∀ (chain : List Task) (o c o' c' : Nat),
      scan_pass psize chain o c = ScanResult.adjusted o' c' → c' ≤ c := by
  intro chain
  induction chain with
  | nil => intro o c o' c' h; simp [scan_pass] at h
  | cons t rest ih =>
    intro o c o' c' h
    simp only [scan_pass] at h
    split at h
    · exact absurd h (by simp)
    · split at h
      · split at h
        · split at h
          · exact absurd h (by simp)
          · next b _ o'' c'' heq =>
            cases h
            exact adjust_while_chunk_le psize _ _ _ _ _ _ _ _ heq
          · exact ih o c o' c' h
        · exact absurd h (by simp)
      · exact ih o c o' c' h

/-- A clean pass means no SUCCESS ancestor on the scanned path contains
the proposal. -/
lemma scan_pass_clean_not_contained (psize : Nat) :
    ∀ (chain : List Task) (o c : Nat),
      scan_pass psize chain o c = ScanResult.clean →
      ∀ t ∈ chain, t.status = Status.success →
        ∀ b, t.user = some b → ¬ interval_contained ⟨o, c⟩ b := by
  intro chain
  induction chain with
  | nil => intro o c _ t ht; simp at ht
  | cons hd rest ih =>
    intro o c h t ht hst b hb
    simp only [scan_pass] at h
    split at h
    · exact absurd h (by simp)
    · next b' hb' =>
      rcases List.mem_cons.mp ht with rfl | htr
      · rw [hb] at hb'
        cases Option.some.inj hb'
        rw [if_pos hst] at h
        split at h
        · split at h
          · exact absurd h (by simp)
          · exact absurd h (by simp)
          · next heq =>
            intro hcon
            exact adjust_while_false_not_contained psize b _ o c _ _ heq
              ⟨hcon.1, hcon.2⟩
        · exact absurd h (by simp)
      · split at h
        · split at h
          · split at h
            · exact absurd h (by simp)
            · exact absurd h (by simp)
            · exact ih o c h t htr hst b hb
          · exact absurd h (by simp)
        · exact ih o c h t htr hst b hb

/-- The scan's assertions (every scanned task carries state; an ancestor's
chunksize is at least the proposal's) hold whenever the path satisfies
the chunksize invariant. -/
lemma scan_pass_ne_assert (psize : Nat) :
    ∀ (chain : List Task) (o c : Nat),
      (∀ t ∈ chain, ∃ b, t.user = some b ∧
        (t.status = Status.success → c ≤ b.chunksize)) →
      scan_pass psize chain o c ≠ ScanResult.assertFailed := by
  intro chain
  induction chain with
  | nil => intro o c _; simp [scan_pass]
  | cons hd rest ih =>
    intro o c hinv
    obtain ⟨b, hb, hchunk⟩ := hinv hd (List.mem_cons_self hd rest)
    have hrest : ∀ t ∈ rest, ∃ b, t.user = some b ∧
        (t.status = Status.success → c ≤ b.chunksize) :=
      fun t ht => hinv t (List.mem_cons_of_mem hd ht)
    simp only [scan_pass, hb]
    split
    · next hst =>
      rw [if_pos (hchunk hst)]
      split
      · simp
      · simp
      · exact ih o c hrest
    · exact ih o c hrest

/-- A proposal the restart loop hands to materialization survived a clean
pass. -/
lemma zero_adjust_loop_some_clean (psize : Nat) (chain : List Task)
    (srcdata : List Nat) (zc : Nat) :
    ∀ (fuel o c o' c' : Nat),
      zero_adjust_loop psize chain srcdata zc fuel o c =
        GAssert.ok (some (o', c')) →
      scan_pass psize chain o' c' = ScanResult.clean := by
  intro fuel
  induction fuel with
  | zero => intro o c o' c' h; simp [zero_adjust_loop] at h
  | succ n ih =>
    intro o c o' c' h
    simp only [zero_adjust_loop] at h
    split at h
    · exact absurd h (by simp)
    · exact absurd h (by simp)
    · exact ih _ _ o' c' h
    · next hclean =>
      split at h
      · split at h
        · split at h
          · exact absurd h (by simp)
          · exact ih _ _ o' c' h
        · exact ih _ _ o' c' h
      · cases h
        exact hclean

/-- The restart loop never increases the chunksize. -/
lemma zero_adjust_loop_chunk_le (psize : Nat) (chain : List Task)
    (srcdata : List Nat) (zc : Nat) :
    ∀ (fuel o c o' c' : Nat),
      zero_adjust_loop psize chain srcdata zc fuel o c =
        GAssert.ok (some (o', c')) →
      c' ≤ c := by
  intro fuel
  induction fuel with
  | zero => intro o c o' c' h; simp [zero_adjust_loop] at h
  | succ n ih =>
    intro o c o' c' h
    simp only [zero_adjust_loop] at h
    split at h
    · exact absurd h (by simp)
    · exact absurd h (by simp)
    · next o'' c'' hadj =>
      exact le_trans (ih _ _ o' c' h) (scan_pass_adjusted_le psize chain _ _ _ _ hadj)
    · split at h
      · split at h
        · split at h
          · exact absurd h (by simp)
          · exact le_trans (ih _ _ o' c' h) (Nat.div_le_self c 2)
        · exact ih _ _ o' c' h
      · cases h
        exact le_rfl

/-- Under the chunksize invariant the restart loop never trips an
assertion. -/
lemma zero_adjust_loop_ne_assert (psize : Nat) (chain : List Task)
    (srcdata : List Nat) (zc : Nat) :
    ∀ (fuel o c : Nat),
      (∀ t ∈ chain, ∃ b, t.user = some b ∧
        (t.status = Status.success → c ≤ b.chunksize)) →
      zero_adjust_loop psize chain srcdata zc fuel o c ≠
        GAssert.assertFailed := by
  intro fuel
  induction fuel with
  | zero => intro o c _; simp [zero_adjust_loop]
  | succ n ih =>
    intro o c hinv
    have hmono : ∀ c'', c'' ≤ c →
        ∀ t ∈ chain, ∃ b, t.user = some b ∧
          (t.status = Status.success → c'' ≤ b.chunksize) := by
      intro c'' hle t ht
      obtain ⟨b, hb, hch⟩ := hinv t ht
      exact ⟨b, hb, fun hs => le_trans hle (hch hs)⟩
    simp only [zero_adjust_loop]
    split
    · next hassert => exact absurd hassert (scan_pass_ne_assert psize chain _ _ hinv)
    · simp
    · next o' c' hadj =>
      exact ih o' c' (hmono c' (scan_pass_adjusted_le psize chain _ _ _ _ hadj))
    · split
      · split
        · split
          · simp
          · exact ih 0 (c / 2) (hmono (c / 2) (Nat.div_le_self c 2))
        · exact ih (o + c) c (hmono c le_rfl)
      · simp

/-! ### Inversion of the strategy functions -/

/-- What a successful Bisect materialization reveals (bisect.c:93-244). -/
lemma strategy_bisect_data_inversion (se : Bool) (chain : List Task)
    (root child : Task)
    (h : strategy_bisect_data se chain root = some child) :
    (chain = [] ∧ (chain.headD root).user = none ∧
      child = strategy_root_init root) ∨
    ∃ pst st1 source,
      (chain.headD root).user = some pst ∧
      st1 = bisect_next_state pst (chain.headD root).size (chain.headD root).status ∧
      st1.chunksize ≠ 0 ∧
      (chain ++ [root]).find? (fun t => t.status == Status.success) = some source ∧
      source.size ≠ 0 ∧
      st1.offset ≤ source.size ∧
      child = bisect_child st1 source := by
  simp only [strategy_bisect_data] at h
  split at h
  · next hu =>
    split at h
    · next hemp =>
      exact Or.inl ⟨List.isEmpty_iff.mp hemp, hu, (Option.some.inj h).symm⟩
    · exact absurd h (by simp)
  · next pst hu =>
    refine Or.inr ?_
    split at h
    · exact absurd h (by simp)
    · next hc0 =>
      split at h
      · exact absurd h (by simp)
      · next source hfind =>
        split at h
        · exact absurd h (by simp)
        · next hsz0 =>
          split at h
          · exact absurd h (by simp)
          · next hoff =>
            exact ⟨pst, _, source, hu, rfl, hc0, hfind, hsz0,
              Nat.le_of_not_lt hoff, (Option.some.inj h).symm⟩

/-- What a successful Zero materialization reveals (zero.c:68-288). -/
lemma strategy_zero_data_inversion (zc : Nat) (chain : List Task)
    (root child : Task)
    (h : strategy_zero_data zc chain root = some child) :
    (chain = [] ∧ (chain.headD root).user = none ∧
      child = strategy_root_init root) ∨
    ∃ pst source o c,
      (chain.headD root).user = some pst ∧
      (chain ++ [root]).find? (fun t => t.status == Status.success) = some source ∧
      zero_adjust_loop (chain.headD root).size chain source.data zc
        (loop_fuel (chain.headD root).size
          (zero_next_state pst (chain.headD root).size).chunksize)
        (zero_next_state pst (chain.headD root).size).offset
        (zero_next_state pst (chain.headD root).size).chunksize =
        GAssert.ok (some (o, c)) ∧
      o ≤ source.size ∧
      child = zero_child zc o c source := by
  simp only [strategy_zero_data] at h
  split at h
  · next hu =>
    split at h
    · next hemp =>
      exact Or.inl ⟨List.isEmpty_iff.mp hemp, hu, (Option.some.inj h).symm⟩
    · exact absurd h (by simp)
  · next pst hu =>
    refine Or.inr ?_
    split at h
    · exact absurd h (by simp)
    · split at h
      · exact absurd h (by simp)
      · next source hfind =>
        split at h
        · exact absurd h (by simp)
        · exact absurd h (by simp)
        · next o c hloop =>
          split at h
          · exact absurd h (by simp)
          · next hoff =>
            exact ⟨pst, source, o, c, hu, hfind, hloop,
              Nat.le_of_not_lt hoff, (Option.some.inj h).symm⟩

/-! ### Lemmas about find_finalized_node -/

/-- Whatever the descent returns was a task of the tree or the accumulator
it started from. -/
lemma find_finalized_loop_mem (b : Bool) :
    ∀ (t : Tree) (final : Option Task) (tk : Task),
      find_finalized_loop b t final = some tk →
      tk ∈ tree_tasks t ∨ final = some tk := by
  intro t
  induction t with
  | leafN task =>
    intro final tk h
    simp only [find_finalized_loop] at h
    exact Or.inr h
  | branch task f s ihf ihs =>
    intro final tk h
    cases task with
    | none =>
      simp only [find_finalized_loop] at h
      exact Or.inr h
    | some tsk =>
      simp only [find_finalized_loop] at h
      split at h
      · rcases ihs _ _ h with hm | hf
        · exact Or.inl (by simp [tree_tasks]; tauto)
        · cases Option.some.inj hf
          exact Or.inl (by simp [tree_tasks])
      · split at h
        · rcases ihf _ _ h with hm | hf
          · exact Or.inl (by simp [tree_tasks]; tauto)
          · cases hb : b with
            | true => rw [hb] at hf; exact Or.inr hf
            | false =>
              rw [hb] at hf
              cases Option.some.inj hf
              exact Or.inl (by simp [tree_tasks])
        · exact Or.inr h

/-- The task find_finalized_node returns belongs to the tree. -/
lemma find_finalized_node_mem (b : Bool) (t : Tree) (tk : Task)
    (h : find_finalized_node b t = some tk) : tk ∈ tree_tasks t := by
  match t with
  | Tree.leafN none => simp [find_finalized_node] at h
  | Tree.branch none f s => simp [find_finalized_node] at h
  | Tree.leafN (some tsk) =>
    simp only [find_finalized_node] at h
    rcases find_finalized_loop_mem b _ _ _ h with hm | hf
    · exact hm
    · split at hf
      · cases Option.some.inj hf; simp [tree_tasks]
      · split at hf
        · cases Option.some.inj hf; simp [tree_tasks]
        · exact absurd hf (by simp)
  | Tree.branch (some tsk) f s =>
    simp only [find_finalized_node] at h
    rcases find_finalized_loop_mem b _ _ _ h with hm | hf
    · exact hm
    · split at hf
      · cases Option.some.inj hf; simp [tree_tasks]
      · split at hf
        · cases Option.some.inj hf; simp [tree_tasks]
        · exact absurd hf (by simp)

/-! ### The claims -/

/-- C1: for every non-root tree node the strategies compute the child's
(offset, chunksize) from the parent's state as the successor table says:
past the end of the file the child restarts at (0, chunksize / 2); below
it, Bisect keeps the state unchanged exactly when the parent succeeded and
advances the offset by the chunksize otherwise, while Zero always
advances; and a resulting chunksize of 0 makes either strategy return no
task. -/
theorem bisect_zero_successor_state_spec (pst : BisectState) (psize : Nat)
    (pstatus : Status) :
    (pst.offset + pst.chunksize > psize →
      bisect_next_state pst psize pstatus = ⟨0, pst.chunksize / 2⟩ ∧
      zero_next_state pst psize = ⟨0, pst.chunksize / 2⟩) ∧
    (pst.offset + pst.chunksize ≤ psize →
      (pstatus = Status.success → bisect_next_state pst psize pstatus = pst) ∧
      (pstatus ≠ Status.success →
        bisect_next_state pst psize pstatus =
          ⟨pst.offset + pst.chunksize, pst.chunksize⟩) ∧
      zero_next_state pst psize = ⟨pst.offset + pst.chunksize, pst.chunksize⟩) ∧
    (∀ (se : Bool) (zc : Nat) (chain : List Task) (root : Task)
        (pstp : BisectState),
      (chain.headD root).user = some pstp →
      ((bisect_next_state pstp (chain.headD root).size
          (chain.headD root).status).chunksize = 0 →
        strategy_bisect_data se chain root = none) ∧
      ((zero_next_state pstp (chain.headD root).size).chunksize = 0 →
        strategy_zero_data zc chain root = none)) := by
  refine ⟨?_, ?_, ?_⟩
  · intro hgt
    constructor
    · simp [bisect_next_state, hgt]
    · simp [zero_next_state, hgt]
  · intro hle
    refine ⟨?_, ?_, ?_⟩
    · intro hs
      simp [bisect_next_state, hs, Nat.not_lt.mpr hle]
    · intro hs
      simp [bisect_next_state, hs, Nat.not_lt.mpr hle]
    · simp [zero_next_state, Nat.not_lt.mpr hle]
  · intro se zc chain root pstp hu
    constructor
    · intro h0
      simp only [strategy_bisect_data, hu]
      rw [if_pos h0]
    · intro h0
      simp only [strategy_zero_data, hu]
      rw [if_pos h0]

/-- C2: the status a worker records is Success exactly when the predicate
child exited normally with code 0; any other exit code, and the killed and
dumped-core dispositions (mapped to the sentinel -1 by the runner), are
recorded as Failure. -/
theorem predicate_result_classification (d : ChildDisposition) :
    (process_result_status (submit_data_subprocess_result d) = Status.success ↔
      d = ChildDisposition.exited 0) ∧
    (process_result_status (submit_data_subprocess_result d) = Status.failure ↔
      d ≠ ChildDisposition.exited 0) := by
  cases d with
  | exited code =>
    by_cases hc : code = 0
    · subst hc
      simp [submit_data_subprocess_result, process_result_status]
    · constructor
      · simp [submit_data_subprocess_result, process_result_status,
          Nat.cast_eq_zero, hc]
      · simp [submit_data_subprocess_result, process_result_status,
          Nat.cast_eq_zero, hc]
  | killed sig =>
    constructor
    · simp [submit_data_subprocess_result, process_result_status]
    · simp [submit_data_subprocess_result, process_result_status]
  | dumped sig =>
    constructor
    · simp [submit_data_subprocess_result, process_result_status]
    · simp [submit_data_subprocess_result, process_result_status]

/-- C3: expanding a leaf whose status is Success puts the real child under
the success slot (index 1) and a placeholder under the failure slot
(index 0); any other leaf status puts the real child under the failure
slot and the placeholder under the success slot. -/
theorem leaf_expansion_slots (st : Status) (child : Task) :
    (st = Status.success →
      g_node_success_slot (expand_leaf st child) = some (some child) ∧
      g_node_failure_slot (expand_leaf st child) = some none) ∧
    (st ≠ Status.success →
      g_node_failure_slot (expand_leaf st child) = some (some child) ∧
      g_node_success_slot (expand_leaf st child) = some none) := by
  constructor
  · intro h
    simp [expand_leaf, h, g_node_insert, g_node_success_slot, g_node_failure_slot]
  · intro h
    simp [expand_leaf, h, g_node_insert, g_node_success_slot, g_node_failure_slot]

/-- C7: after GC a task's fd is -1 and its childpid 0; a Pending task is
now Discarded while a Success or Failure status is left alone; and no
field besides status, fd and childpid is modified. -/
theorem cleanup_orphaned_tasks_spec (task : Task) :
    (cleanup_orphaned_tasks task).fd = -1 ∧
    (cleanup_orphaned_tasks task).childpid = 0 ∧
    (task.status = Status.pending →
      (cleanup_orphaned_tasks task).status = Status.discarded) ∧
    (task.status = Status.success →
      (cleanup_orphaned_tasks task).status = Status.success) ∧
    (task.status = Status.failure →
      (cleanup_orphaned_tasks task).status = Status.failure) ∧
    (cleanup_orphaned_tasks task).size = task.size ∧
    (cleanup_orphaned_tasks task).user = task.user ∧
    (cleanup_orphaned_tasks task).timer = task.timer ∧
    (cleanup_orphaned_tasks task).data = task.data := by
  refine ⟨rfl, rfl, ?_, ?_, ?_, rfl, rfl, rfl, rfl⟩
  · intro h
    simp [cleanup_orphaned_tasks, h]
  · intro h
    simp [cleanup_orphaned_tasks, h]
  · intro h
    simp [cleanup_orphaned_tasks, h]

/-- C8 counterexample: a configuration with max_unprocessed = 0 passes
every check main() performs before the engine starts, and the driver's
backpressure gate lets work generation proceed under the zero bound (as
soon as the queue is empty), so the engine runs instead of rejecting the
configuration. -/
theorem max_unprocessed_zero_accepted :
    main_config_accepted
      { maxUnprocessed := 0, argcOk := true, scriptExecutable := true,
        inputReadable := true } = true ∧
    should_generate_work 0 0 = true := by
  decide

/-- C8 amended: the engine performs no validation of max_unprocessed —
main()'s acceptance of a configuration is independent of its value — and
with the bound at 0 the driver still generates work, exactly when the
unprocessed queue is empty (serializing speculation rather than
stalling or aborting). -/
theorem max_unprocessed_not_validated :
    (∀ (m mp : Nat) (a s i : Bool),
      main_config_accepted
        { maxUnprocessed := m, argcOk := a, scriptExecutable := s,
          inputReadable := i } =
      main_config_accepted
        { maxUnprocessed := mp, argcOk := a, scriptExecutable := s,
          inputReadable := i }) ∧
    (∀ u : Nat, should_generate_work u 0 = true ↔ u = 0) := by
  constructor
  · intro m mp a s i
    rfl
  · intro u
    simp [should_generate_work]

/-- C4: every task Bisect materializes for a non-root node holds the
source's bytes [0, offset) followed by its bytes
[offset + chunksize, source.size), and its size is
source.size - min(chunksize, source.size - offset), where (offset,
chunksize) is the child's state and the source is the SUCCESS task the
upward search finds (the nearest Success ancestor). -/
theorem bisect_materialized_task_spec (se : Bool) (chain : List Task)
    (root child : Task) (pst : BisectState)
    (hpu : (chain.headD root).user = some pst)
    (hs : strategy_bisect_data se chain root = some child)
    (hsz : ∀ t ∈ chain ++ [root], t.status = Status.success →
      t.size = t.data.length) :
    ∃ source st,
      (chain ++ [root]).find? (fun t => t.status == Status.success) =
        some source ∧
      source.status = Status.success ∧
      child.user = some st ∧
      child.data =
        source.data.take st.offset ++
          source.data.drop (st.offset + st.chunksize) ∧
      child.size = source.size - min st.chunksize (source.size - st.offset) := by
  rcases strategy_bisect_data_inversion se chain root child hs with
    ⟨-, hnone, -⟩ | ⟨pstp, st1, source, hu, hst1, hc0, hfind, hsz0, hoff, hchild⟩
  · rw [hpu] at hnone
    exact absurd hnone (by simp)
  · have hsucc : source.status = Status.success := by
      have := List.find?_some hfind
      simpa using this
    have hmem : source ∈ chain ++ [root] := List.mem_of_find?_eq_some hfind
    have hlen : source.size = source.data.length := hsz source hmem hsucc
    refine ⟨source, st1, hfind, hsucc, ?_, ?_, ?_⟩
    · rw [hchild]; rfl
    · rw [hchild]
      simp only [bisect_child, g_sendfile_chunk, List.drop_zero]
      split_ifs with hcase
      · congr 1
        exact List.take_of_length_le (by simp [List.length_drop]; omega)
      · rw [List.drop_eq_nil_of_le (by omega), List.append_nil]
    · rw [hchild]
      simp only [bisect_child]
      split_ifs with hcase <;> omega

/-- C4 witness: a concrete Bisect materialization under a failed parent
with state (0, 2) and the 4-byte example root as source. -/
theorem bisect_materialized_task_witness :
    ∃ source st,
      ([taskFailedHalfExample] ++ [taskRootExample]).find?
        (fun t => t.status == Status.success) = some source ∧
      source.status = Status.success ∧
      (bisect_child ⟨2, 2⟩ taskRootExample).user = some st ∧
      (bisect_child ⟨2, 2⟩ taskRootExample).data =
        source.data.take st.offset ++
          source.data.drop (st.offset + st.chunksize) ∧
      (bisect_child ⟨2, 2⟩ taskRootExample).size =
        source.size - min st.chunksize (source.size - st.offset) :=
  bisect_materialized_task_spec false [taskFailedHalfExample] taskRootExample
    (bisect_child ⟨2, 2⟩ taskRootExample) ⟨0, 2⟩ rfl (by decide) (by decide)

/-- C5 counterexample: the Zero strategy's redundancy scan excludes the
root (zero.c:131 stops before G_NODE_IS_ROOT), so it returns a task whose
proposed interval (0, 2) lies entirely inside the interval (0, 4) of the
root, a Success ancestor — contradicting the claim that no returned task
is contained in a Success ancestor's interval. -/
theorem zero_skip_root_counterexample :
    ∃ child st,
      strategy_zero_data 0 [taskFailedExample] taskRootExample = some child ∧
      child.user = some st ∧
      taskRootExample.status = Status.success ∧
      taskRootExample.user = some ⟨0, 4⟩ ∧
      interval_contained st ⟨0, 4⟩ := by
  refine ⟨zero_child 0 0 2 taskRootExample, ⟨0, 2⟩, by decide, rfl, rfl, rfl, by decide⟩

/-- C5 amended: the Zero strategy's skip scan covers the Success ancestors
strictly below the root (the scan excludes the root node); whenever a
contained proposal is found it advances by the chunksize with the
cycle-rollover rule and restarts, and the strategy never returns a task
whose proposed interval is contained in such a non-root Success
ancestor's interval. -/
theorem zero_skip_nonroot_ancestors (zc : Nat) (chain : List Task)
    (root child : Task)
    (h : strategy_zero_data zc chain root = some child) :
    ∀ st, child.user = some st →
      ∀ A ∈ chain, A.status = Status.success →
        ∀ b, A.user = some b → ¬ interval_contained st b := by
  intro st hst A hA hAs b hb
  rcases strategy_zero_data_inversion zc chain root child h with
    ⟨hemp, -, -⟩ | ⟨pst, source, o, c, -, -, hloop, -, hchild⟩
  · subst hemp
    simp at hA
  · subst hchild
    cases Option.some.inj hst
    exact scan_pass_clean_not_contained _ chain o c
      (zero_adjust_loop_some_clean _ chain source.data zc _ _ _ _ _ hloop)
      A hA hAs b hb

/-- C5 witness: under a zeroed Success ancestor with state (0, 2) the
strategy advances to the proposal (2, 2), which is indeed not contained
in that ancestor's interval. -/
theorem zero_skip_nonroot_ancestors_witness :
    ¬ interval_contained ⟨2, 2⟩ ⟨0, 2⟩ :=
  zero_skip_nonroot_ancestors 0 [taskZeroedExample] taskRootExample
    (zero_child 0 2 2 taskZeroedExample) (by decide) ⟨2, 2⟩ rfl
    taskZeroedExample (by simp) rfl ⟨0, 2⟩ rfl

/-- C6: monotone minimization — when every task the tree carries is no
larger than the initial input, the blob duplicate_final_node hands back
is no larger either; and both strategies preserve that invariant: a task
they materialize is never larger than the bound satisfied by the path it
was derived from. -/
theorem monotone_minimization (t : Tree) (S : Nat)
    (hall : ∀ tk ∈ tree_tasks t, tk.size ≤ S) :
    (∀ n, duplicate_final_node t = some n → n ≤ S) ∧
    (∀ (se : Bool) (chain : List Task) (root child : Task),
      strategy_bisect_data se chain root = some child →
      (∀ a ∈ chain ++ [root], a.size ≤ S) → child.size ≤ S) ∧
    (∀ (zc : Nat) (chain : List Task) (root child : Task),
      strategy_zero_data zc chain root = some child →
      (∀ a ∈ chain ++ [root], a.size ≤ S) → child.size ≤ S) := by
  refine ⟨?_, ?_, ?_⟩
  · intro n hd
    obtain ⟨tk, hfind, hn⟩ := Option.map_eq_some'.mp hd
    exact hn ▸ hall tk (find_finalized_node_mem true t tk hfind)
  · intro se chain root child hs hsizes
    rcases strategy_bisect_data_inversion se chain root child hs with
      ⟨-, -, hchild⟩ | ⟨pst, st1, source, -, -, -, hfind, -, hoff, hchild⟩
    · subst hchild
      exact hsizes root (by simp)
    · subst hchild
      have hS := hsizes source (List.mem_of_find?_eq_some hfind)
      simp only [bisect_child]
      split_ifs <;> omega
  · intro zc chain root child hs hsizes
    rcases strategy_zero_data_inversion zc chain root child hs with
      ⟨-, -, hchild⟩ | ⟨pst, source, o, c, -, hfind, -, -, hchild⟩
    · subst hchild
      exact hsizes root (by simp)
    · subst hchild
      exact hsizes source (List.mem_of_find?_eq_some hfind)

/-- C6 witness: on the finalized example tree, bounded by the 4-byte root,
the duplicated final node measures 2 bytes. -/
theorem monotone_minimization_witness :
    (∀ n, duplicate_final_node treeExample = some n → n ≤ 4) ∧
    (∀ (se : Bool) (chain : List Task) (root child : Task),
      strategy_bisect_data se chain root = some child →
      (∀ a ∈ chain ++ [root], a.size ≤ 4) → child.size ≤ 4) ∧
    (∀ (zc : Nat) (chain : List Task) (root child : Task),
      strategy_zero_data zc chain root = some child →
      (∀ a ∈ chain ++ [root], a.size ≤ 4) → child.size ≤ 4) :=
  monotone_minimization treeExample 4 (by decide)

/-- C9: along every root-to-leaf derivation of strategy states the
chunksize is non-increasing, and under that invariant (every scanned
ancestor carries state with chunksize at least the proposal's) the Zero
scan's assertion (zero.c:142) never fires. -/
theorem chunksize_antitone_invariant (path : List BisectState)
    (chain : List Task) (psize fuel o c zc : Nat) (srcdata : List Nat)
    (hpath : List.Chain' DerivesChildState path)
    (hchain : ∀ t ∈ chain, ∃ b, t.user = some b ∧
      (t.status = Status.success → c ≤ b.chunksize)) :
    path.Pairwise (fun a b => b.chunksize ≤ a.chunksize) ∧
    zero_adjust_loop psize chain srcdata zc fuel o c ≠
      GAssert.assertFailed := by
  constructor
  · have hle : List.Chain' (fun a b => b.chunksize ≤ a.chunksize) path := by
      refine List.Chain'.imp ?_ hpath
      intro a b h
      cases h with
      | bisect psize2 pstatus =>
        simp only [bisect_next_state]
        split_ifs <;> simp [Nat.div_le_self]
      | zero psize2 fuel2 zc2 chain2 srcdata2 o2 c2 hloop =>
        refine le_trans
          (zero_adjust_loop_chunk_le psize2 chain2 srcdata2 zc2 fuel2 _ _ o2 c2 hloop) ?_
        simp only [zero_next_state]
        split_ifs <;> simp [Nat.div_le_self]
    letI : IsTrans BisectState (fun a b => b.chunksize ≤ a.chunksize) :=
      ⟨fun x y z hxy hyz => le_trans hyz hxy⟩
    exact List.chain'_iff_pairwise.mp hle
  · exact zero_adjust_loop_ne_assert psize chain srcdata zc fuel o c hchain

/-- C9 witness: a concrete three-step derivation (0,4) to (4,4) to (0,2)
is chunksize-antitone, and the scan over the zeroed example ancestor
trips no assertion for the proposal (2, 2). -/
theorem chunksize_antitone_witness :
    ([⟨0, 4⟩, ⟨4, 4⟩, ⟨0, 2⟩] : List BisectState).Pairwise
      (fun a b => b.chunksize ≤ a.chunksize) ∧
    zero_adjust_loop 4 [taskZeroedExample] [0, 0, 3, 4] 0 42 2 2 ≠
      GAssert.assertFailed := by
  have h1 : DerivesChildState ⟨0, 4⟩ ⟨4, 4⟩ := by
    have h := DerivesChildState.bisect ⟨0, 4⟩ 4 Status.failure
    simpa [bisect_next_state] using h
  have h2 : DerivesChildState ⟨4, 4⟩ ⟨0, 2⟩ := by
    have h := DerivesChildState.bisect ⟨4, 4⟩ 4 Status.failure
    simpa [bisect_next_state] using h
  refine chunksize_antitone_invariant [⟨0, 4⟩, ⟨4, 4⟩, ⟨0, 2⟩]
    [taskZeroedExample] 4 42 2 2 0 [0, 0, 3, 4]
    (List.chain'_cons.mpr ⟨h1, List.chain'_cons.mpr
      ⟨h2, List.chain'_singleton _⟩⟩) ?_
  intro t ht
  rw [List.mem_singleton] at ht
  subst ht
  exact ⟨⟨0, 2⟩, rfl, fun _ => le_rfl⟩

/-- C10: on a non-empty input the root is initialized with state
(0, size) and assumed Success, and the first candidate Bisect then
materializes keeps (0, size) and removes the entire input — an empty
task — for every value of the declared but never consulted
--bisect-skip-empty flag. -/
theorem bisect_first_candidate_empty (root : Task) (se : Bool)
    (h0 : root.user = none) (h1 : root.status = Status.success)
    (h2 : root.size = root.data.length) (h3 : 0 < root.size) :
    strategy_bisect_data se [] root = some (strategy_root_init root) ∧
    ∃ child,
      strategy_bisect_data se [] (strategy_root_init root) = some child ∧
      child.size = 0 ∧ child.data = [] := by
  constructor
  · simp [strategy_bisect_data, h0]
  · have hu : (strategy_root_init root).user = some ⟨0, root.size⟩ := rfl
    have hst1 : bisect_next_state ⟨0, root.size⟩ (strategy_root_init root).size
        (strategy_root_init root).status = ⟨0, root.size⟩ := by
      have hsz : (strategy_root_init root).size = root.size := rfl
      have hss : (strategy_root_init root).status = root.status := rfl
      simp [bisect_next_state, hsz, hss, h1]
    refine ⟨bisect_child ⟨0, root.size⟩ (strategy_root_init root), ?_, ?_, ?_⟩
    · have hbeq : ((strategy_root_init root).status == Status.success) = true := by
        rw [show (strategy_root_init root).status = root.status from rfl, h1]
        rfl
      have hfind : List.find? (fun t => t.status == Status.success)
          [strategy_root_init root] = some (strategy_root_init root) := by
        simp [List.find?, hbeq]
      have hs0 : ¬((strategy_root_init root).size = 0) := by
        rw [show (strategy_root_init root).size = root.size from rfl]
        omega
      simp only [strategy_bisect_data, List.headD_nil, hu, hst1,
        List.nil_append, hfind]
      rw [if_neg (by omega : ¬(root.size = 0)), if_neg hs0, if_neg (by omega)]
    · simp only [bisect_child]
      have hsz : (strategy_root_init root).size = root.size := rfl
      rw [hsz, if_pos (by omega)]
      omega
    · simp only [bisect_child, g_sendfile_chunk]
      have hsz : (strategy_root_init root).size = root.size := rfl
      rw [hsz, if_pos (by omega)]
      simp

/-- C10 witness: the fresh 3-byte example root is initialized to state
(0, 3) and the first Bisect candidate under it is the empty task. -/
theorem bisect_first_candidate_empty_witness :
    strategy_bisect_data true [] taskFreshRootExample =
      some (strategy_root_init taskFreshRootExample) ∧
    ∃ child,
      strategy_bisect_data true [] (strategy_root_init taskFreshRootExample) =
        some child ∧
      child.size = 0 ∧ child.data = [] :=
  bisect_first_candidate_empty taskFreshRootExample true rfl rfl
    (by decide) (by decide)

end Halfempty
